import Mathlib

/-!
# Verification of `textbook_converter.py`

Shallow embedding of the extraction → normalization → assembly pipeline of
the textbook-converter repository (single source file
`src/textbook_converter.py`), together with theorems settling the frozen
claims about its specification.

Conventions:
* Python strings are modelled as Lean `String` / `List Char`; the regular
  expressions of `clean_text` are small enough to be embedded as direct
  recursive character-list transformations with the exact `re.sub`
  left-to-right, non-overlapping scan semantics.
* Python's `\s` class is modelled by its ASCII part (space, tab, newline,
  carriage return, vertical tab, form feed); the inputs of this program are
  ordinary text and no claim hinges on exotic Unicode whitespace.
* Python floats (image geometry) are modelled by exact rationals `ℚ`.
* Fallible operations (opening a container, decoding an image) are modelled
  by `Option` inputs / explicit success flags, and the Streamlit
  `st.error`/`st.warning` side channel by explicit log lists.
-/

namespace Textbook

/-! ## Character classes (ASCII fragments of Python's `\s`, `\w`, `[A-Z]`, `\d`) -/

/-- ASCII whitespace, the ASCII fragment of Python's `\s` (and of
`str.strip`'s default chars). -/
def isWsC (c : Char) : Bool :=
  c = ' ' ∨ c = '\t' ∨ c = '\n' ∨ c = '\r' ∨ c = '\x0b' ∨ c = '\x0c'

/-- ASCII decimal digit, Python's `\d` restricted to ASCII. -/
def isDigitC (c : Char) : Bool := '0' ≤ c ∧ c ≤ '9'

/-- ASCII word character, Python's `\w` restricted to ASCII. -/
def isWordC (c : Char) : Bool :=
  isDigitC c ∨ ('a' ≤ c ∧ c ≤ 'z') ∨ ('A' ≤ c ∧ c ≤ 'Z') ∨ c = '_'

/-- The character class `[A-Z]` of the sentence-break rule. -/
def isUpperC (c : Char) : Bool := 'A' ≤ c ∧ c ≤ 'Z'

/-- Sentence-terminal punctuation, the class `[.!?]`. -/
def isPunctC (c : Char) : Bool := c = '.' ∨ c = '!' ∨ c = '?'

/-! ## The text normalizer `clean_text` (source lines 58–66)

```python
def clean_text(text):
    if not text:
        return ""
    text = re.sub(r'\s+', ' ', text)            # rule 1
    text = re.sub(r'•\s*', '\n• ', text)        # rule 2
    text = re.sub(r'\b(\d+\.)\s+', r'\n\1 ', text)  # rule 3
    text = re.sub(r'([.!?])([A-Z])', r'\1\n\2', text)  # rule 4
    return text.strip()
```
-/

/-- Rule 1, `re.sub(r'\s+', ' ', text)`: every maximal whitespace run is
replaced by a single space.  The boolean argument records whether the scan
is currently inside a whitespace run whose first character has already been
emitted as `' '`. -/
def collapseAux : Bool → List Char → List Char
  | _, [] => []
  | inRun, c :: cs =>
    if isWsC c then
      if inRun then collapseAux true cs
      else ' ' :: collapseAux true cs
    else c :: collapseAux false cs

/-- `re.sub(r'\s+', ' ', text)`. -/
def collapse (l : List Char) : List Char := collapseAux false l

/-- Rule 2, `re.sub(r'•\s*', '\n• ', text)`: each bullet glyph together with
the whitespace run following it is replaced by `"\n• "`.  The boolean
argument records whether the scan is currently consuming the `\s*` part of a
match. -/
def bulletizeAux : Bool → List Char → List Char
  | _, [] => []
  | skipWs, c :: cs =>
    if skipWs ∧ isWsC c then bulletizeAux true cs
    else if c = '•' then '\n' :: '•' :: ' ' :: bulletizeAux true cs
    else c :: bulletizeAux false cs

/-- `re.sub(r'•\s*', '\n• ', text)`. -/
def bulletize (l : List Char) : List Char := bulletizeAux false l

/-- Attempt to match `(\d+\.)\s+` at the head of `l` (the `\b` context is
checked by the caller).  On success, returns the digit group and the
remainder of the input after the consumed whitespace run. -/
def numMatch (l : List Char) : Option (List Char × List Char) :=
  let ds := l.takeWhile isDigitC
  if ds.isEmpty then none
  else
    match l.drop ds.length with
    | '.' :: r =>
      let ws := r.takeWhile isWsC
      if ws.isEmpty then none else some (ds, r.drop ws.length)
    | _ => none

/-- Rule 3, `re.sub(r'\b(\d+\.)\s+', r'\n\1 ', text)`.  `prevW` records
whether the previous character of the original string is a word character
(`\b` holds before a digit exactly when it is not); the scan consumes one
character, or a whole match, per step.  Fuel-driven so that the definition
is structural and evaluates by `rfl`/`decide`; `numberize` supplies
`l.length` as fuel, which each step strictly decreases the input below. -/
def numberizeAux : Nat → Bool → List Char → List Char
  | 0, _, l => l
  | _ + 1, _, [] => []
  | fuel + 1, prevW, c :: cs =>
    if prevW then c :: numberizeAux fuel (isWordC c) cs
    else
      match numMatch (c :: cs) with
      | some (ds, rest) => '\n' :: (ds ++ '.' :: ' ' :: numberizeAux fuel false rest)
      | none => c :: numberizeAux fuel (isWordC c) cs

/-- `re.sub(r'\b(\d+\.)\s+', r'\n\1 ', text)`. -/
def numberize (l : List Char) : List Char := numberizeAux l.length false l

/-- Rule 4, `re.sub(r'([.!?])([A-Z])', r'\1\n\2', text)`: a newline is put
between sentence-terminal punctuation and an immediately following capital
letter; matches are non-overlapping, so the scan resumes after the capital. -/
def sentenceBreak : List Char → List Char
  | [] => []
  | [c] => [c]
  | c :: d :: rest =>
    if isPunctC c ∧ isUpperC d then c :: '\n' :: d :: sentenceBreak rest
    else c :: sentenceBreak (d :: rest)

/-- Python `str.strip()`: drop leading and trailing whitespace. -/
def stripL (l : List Char) : List Char :=
  (((l.dropWhile isWsC).reverse).dropWhile isWsC).reverse

/-- The four rules and the final strip, on character lists. -/
def cleanList (l : List Char) : List Char :=
  stripL (sentenceBreak (numberize (bulletize (collapse l))))

/-- `clean_text` (source lines 58–66).  `if not text: return ""` is the
empty-string branch; the `None` case is `clean_text_opt` below. -/
def clean_text (s : String) : String :=
  if s.data.isEmpty then "" else ⟨cleanList s.data⟩

/-- `clean_text` on a possibly-`None` argument: Python's `if not text`
treats `None` and `""` alike. -/
def clean_text_opt : Option String → String
  | none => ""
  | some s => clean_text s

/-- Python `str.strip()` on `String`. -/
def stripS (s : String) : String := ⟨stripL s.data⟩

/-- Splitting on a separator character, Python `str.split(sep)` semantics
(`"".split(sep) == [""]`, empty segments preserved). -/
def splitOnChar (sep : Char) : List Char → List (List Char)
  | [] => [[]]
  | c :: cs =>
    let r := splitOnChar sep cs
    if c = sep then [] :: r
    else
      match r with
      | [] => [[c]]
      | x :: xs => (c :: x) :: xs

/-- Python `text.split('\n')`. -/
def splitNl (s : String) : List String :=
  (splitOnChar '\n' s.data).map fun l => ⟨l⟩

/-- Python `'\n'.join(...)`. -/
def joinNl : List String → String
  | [] => ""
  | [s] => s
  | s :: rest => s ++ "\n" ++ joinNl rest

/-! ## Content extraction (source lines 106–212)

An extracted image asset as the assembler later sees it: the scratch-file
path chosen by the extractor, the natural pixel size that `PILImage.open`
reports when the assembler reopens the file, and whether that reopening
succeeds at render time. -/

structure ImgFile where
  path : String
  w : ℚ
  h : ℚ
  renderable : Bool
  deriving DecidableEq, Repr

/-- One element of `content`: the `{"text": ..., "images": [...]}` dict
produced per page/slide. -/
structure SlideContent where
  text : String
  images : List ImgFile
  deriving DecidableEq, Repr

/-- A raw embedded image as it sits in the source container before
extraction: payload size in bytes, the extension the container reports,
whether `PILImage.open` succeeds on the written payload during extraction,
and the natural size / render-time openability the assembler will see. -/
structure SrcImg where
  size : Nat
  ext : String
  decodable : Bool
  w : ℚ
  h : ℚ
  renderable : Bool
  deriving DecidableEq, Repr

/-- Outcome of the per-unit image-extraction loop: the images appended to
the unit's list, the scratch files present afterwards, the files that were
written and then deleted again, and the number of `st.warning` calls. -/
structure ImgScan where
  kept : List ImgFile
  scratch : List String
  removed : List String
  warnings : Nat
  deriving DecidableEq, Repr

/-- `if img_ext == "jp2": img_ext = "jpeg"` (source lines 190–191). -/
def pdfExt (e : String) : String := if e = "jp2" then "jpeg" else e

/-- `img_dir / f"page_{page_number}_img_{img_index}.{img_ext}"` (line 193). -/
def pdfImgPath (p j : Nat) (e : String) : String :=
  "page_" ++ toString p ++ "_img_" ++ toString j ++ "." ++ pdfExt e

/-- The PDF image loop (source lines 181–206): `img_index` comes from
`enumerate` over the full image list, so failed images still consume an
index.  Each payload is written, then validated with `PILImage.open`; on
failure the file is removed (`os.remove`) and a warning issued, on success
the path is appended to the page's image list.  No byte-size check occurs
anywhere in the loop. -/
def pdfScanFrom (p j : Nat) : List SrcImg → ImgScan
  | [] => ⟨[], [], [], 0⟩
  | im :: rest =>
    let path := pdfImgPath p j im.ext
    let r := pdfScanFrom p (j + 1) rest
    if im.decodable then
      ⟨⟨path, im.w, im.h, im.renderable⟩ :: r.kept, path :: r.scratch, r.removed, r.warnings⟩
    else
      ⟨r.kept, r.scratch, path :: r.removed, r.warnings + 1⟩

/-- The PDF image loop of one page, started at index 0. -/
def pdfScan (p : Nat) (imgs : List SrcImg) : ImgScan := pdfScanFrom p 0 imgs

/-- `img_dir / f"slide_{slide_number}_img_{img_count}.{img_ext}"` (line 138). -/
def pptxImgPath (n j : Nat) (e : String) : String :=
  "slide_" ++ toString n ++ "_img_" ++ toString j ++ "." ++ e

/-- The PPTX image loop (source lines 132–152): `img_count` is incremented
only after a successful validation, so a failed image's index is reused by
the next success; failed payloads are removed and produce a warning. -/
def pptxScanFrom (n j : Nat) : List SrcImg → ImgScan
  | [] => ⟨[], [], [], 0⟩
  | im :: rest =>
    let path := pptxImgPath n j im.ext
    if im.decodable then
      let r := pptxScanFrom n (j + 1) rest
      ⟨⟨path, im.w, im.h, im.renderable⟩ :: r.kept, path :: r.scratch, r.removed, r.warnings⟩
    else
      let r := pptxScanFrom n j rest
      ⟨r.kept, r.scratch, path :: r.removed, r.warnings + 1⟩

/-- The PPTX image loop of one slide, started at count 0. -/
def pptxScan (n : Nat) (imgs : List SrcImg) : ImgScan := pptxScanFrom n 0 imgs

/-- One PDF page as `fitz` presents it: the result of `page.get_text()`
(`none` models the call raising, line 176's `except`), and the embedded
images of `page.get_images(full=True)`. -/
structure PdfPage where
  textResult : Option String
  images : List SrcImg
  deriving DecidableEq, Repr

/-- A successfully opened PDF document. -/
structure PdfDoc where
  pages : List PdfPage
  deriving DecidableEq, Repr

/-- Per-page content (source lines 168–210): cleaned text (empty when text
extraction failed) plus the surviving images. -/
def pdfPageContent (p : Nat) (pg : PdfPage) : SlideContent :=
  { text := match pg.textResult with
      | some t => clean_text t
      | none => ""
    images := (pdfScan p pg.images).kept }

/-- `extract_pdf` (source lines 158–212).  The argument models the outcome
of `fitz.open`: `none` means the open raised.  The second component is the
`st.error` log: on open failure the function logs the error **and returns
the empty list** (lines 160–164); no exception propagates to the caller. -/
def extract_pdf (opened : Option PdfDoc) : List SlideContent × List String :=
  match opened with
  | none => ([], ["Failed to open PDF file"])
  | some doc => (doc.pages.enum.map fun pu => pdfPageContent pu.1 pu.2, [])

/-- One PPTX slide: the per-paragraph texts of its text-bearing shapes
(each already the space-join of its non-blank runs, lines 120–126), and the
image blobs of its picture shapes. -/
structure PptxSlide where
  texts : List String
  images : List SrcImg
  deriving DecidableEq, Repr

/-- A successfully opened presentation. -/
structure PptxPres where
  slides : List PptxSlide
  deriving DecidableEq, Repr

/-- Per-slide content (source lines 116–154): the paragraph texts joined
with line breaks and normalized, plus the surviving images. -/
def pptxSlideContent (n : Nat) (sl : PptxSlide) : SlideContent :=
  { text := clean_text (joinNl sl.texts)
    images := (pptxScan n sl.images).kept }

/-- `extract_pptx` (source lines 106–156); `none` models `Presentation(...)`
raising, in which case the error is logged and the empty list returned
(lines 108–112). -/
def extract_pptx (opened : Option PptxPres) : List SlideContent × List String :=
  match opened with
  | none => ([], ["Failed to open PPTX file"])
  | some prs => (prs.slides.enum.map fun nu => pptxSlideContent nu.1 nu.2, [])

/-! ## PDF generation `create_textbook_pdf` (source lines 217–335) -/

/-- The style roles actually used when appending elements. -/
inductive StyleRole
  | textbook
  | heading1
  | heading2
  | caption
  deriving DecidableEq, Repr

/-- A ReportLab flowable appended to `elements`. -/
inductive Elem
  | para (role : StyleRole) (text : String)
  | spacerE (h : ℚ)
  | pageBreakE
  | imageE (path : String) (w h : ℚ)
  deriving DecidableEq, Repr

/-- `reportlab.lib.units.inch` = 72 points. -/
def inch : ℚ := 72

/-- `max_width = 3 * inch` (line 307). -/
def maxImgWidth : ℚ := 3 * inch

/-- `max_height = 2.5 * inch` (line 308). -/
def maxImgHeight : ℚ := 5 / 2 * inch

/-- The resize computation of lines 302–315, with the bounding box as
parameters (the code instantiates `maxImgWidth × maxImgHeight`); float
arithmetic is modelled exactly over `ℚ`:

```python
aspect = width / height
if width > max_width:  height = max_width / aspect; width = max_width
if height > max_height: width = max_height * aspect; height = max_height
``` -/
def resizeDims (w h maxW maxH : ℚ) : ℚ × ℚ :=
  let aspect := w / h
  let p1 := if w > maxW then (maxW, maxW / aspect) else (w, h)
  if p1.2 > maxH then (maxH * aspect, maxH) else p1

/-- Python `str.lower` on the ASCII letters (the inputs relevant to the
heading heuristic are ASCII). -/
def lowerChar (c : Char) : Char :=
  if 'A' ≤ c ∧ c ≤ 'Z' then Char.ofNat (c.toNat + 32) else c

/-- Python's `sub in s` substring test. -/
def containsStr (s pat : String) : Bool :=
  (List.range (s.data.length + 1)).any fun i => pat.data.isPrefixOf (s.data.drop i)

/-- The heading heuristic of line 287:
`"heading" in item['text'].lower()[:20]`. -/
def headingDetect (t : String) : Bool :=
  containsStr ⟨(t.data.map lowerChar).take 20⟩ "heading"

/-- The text rendering of one unit (lines 285–294): a truthy text either
becomes one `Heading2` paragraph plus a spacer (when the heuristic fires) or
one body paragraph per non-blank line. -/
def textElems (t : String) : List Elem :=
  if t = "" then []
  else if headingDetect t then
    [.para .heading2 t, .spacerE (1 / 10 * inch)]
  else
    ((splitNl t).filter fun p => stripS p ≠ "").map (.para .textbook)

/-- `List` concat-map, spelled out for easy induction. -/
def catMap (f : α → List β) : List α → List β
  | [] => []
  | a :: as => f a ++ catMap f as

/-- The image rendering of one unit (lines 297–329): every image first gets
a spacer; a renderable image is resized and followed by a caption that uses
the unit index `i` (`f"Figure {i+1}: ..."`) and a trailing spacer; an image
that fails to open is skipped with a warning (the leading spacer stays). -/
def imageElems (i : Nat) (imgs : List ImgFile) : List Elem :=
  catMap
    (fun im =>
      .spacerE (1 / 10 * inch) ::
        if im.renderable then
          let wh := resizeDims im.w im.h maxImgWidth maxImgHeight
          [.imageE im.path wh.1 wh.2,
            .para .caption ("Figure " ++ toString (i + 1) ++ ": Relevant diagram"),
            .spacerE (1 / 5 * inch)]
        else [])
    imgs

/-- All elements contributed by unit `i` (text first, then images). -/
def unitElems (i : Nat) (u : SlideContent) : List Elem :=
  textElems u.text ++ imageElems i u.images

/-- The title page (lines 274–277); note its trailing `PageBreak`. -/
def titleElems : List Elem :=
  [.para .heading1 "Course Materials Textbook",
    .spacerE (1 / 2 * inch),
    .para .textbook "Generated from Lecture Materials",
    .pageBreakE]

/-- The content loop (lines 280–329): `for i, item in enumerate(content)`,
with a `PageBreak` prepended for every `i > 0`. -/
def contentElemsFrom (i : Nat) : List SlideContent → List Elem
  | [] => []
  | u :: rest =>
    (if i > 0 then [.pageBreakE] else []) ++ unitElems i u ++ contentElemsFrom (i + 1) rest

/-- The content loop started at index 0. -/
def contentElems (content : List SlideContent) : List Elem := contentElemsFrom 0 content

/-- `create_textbook_pdf` (lines 217–335): `None` on empty content (lines
219–221), otherwise the built element sequence (title page then the content
loop).  Style and page-template setup and `doc.build` are modelled as
succeeding deterministically. -/
def create_textbook_pdf (content : List SlideContent) : Option (List Elem) :=
  if content.isEmpty then none
  else some (titleElems ++ contentElems content)

/-- Number of explicit `PageBreak` flowables in an element list. -/
def countPB (es : List Elem) : Nat := es.countP fun e => decide (e = .pageBreakE)

/-- Element lists joined by single `PageBreak` separators (the shape the
content loop produces between consecutive units). -/
def sepJoin : List (List Elem) → List Elem
  | [] => []
  | [x] => x
  | x :: xs => x ++ .pageBreakE :: sepJoin xs

/-! ## The driver `main` (source lines 340–438) -/

/-- The empty-content guard of lines 407–410:
`if not content or all(len(item.get('text','')) == 0 and
len(item.get('images',[])) == 0 for item in content)`. -/
def emptyGuard (content : List SlideContent) : Bool :=
  content.isEmpty || content.all fun u => u.text.length == 0 && u.images.isEmpty

/-- The conversion part of `main` after extraction (lines 407–414): the
guard fires before `create_textbook_pdf` is ever called; `Except.error`
models the `st.error` + early `return` path, where no output artifact is
produced. -/
def runConversion (content : List SlideContent) : Except String (List Elem) :=
  if emptyGuard content then .error "No extractable content found in the file"
  else
    match create_textbook_pdf content with
    | some es => .ok es
    | none => .error "PDF generation failed"

/-! ## The markup parser of spec §4.3 -/

/-- A typed layout block of the spec's markup parser. -/
inductive LayoutBlock
  | heading (level : Nat) (text : String)
  | paragraph (text : String)
  | listItem (marker : String) (text : String)
  | spacerB
  deriving DecidableEq, Repr

/-- Modelled from the spec: the Markup Parser of §4.3 is not present in
`src/textbook_converter.py` (the code renders unit text directly); this is
the spec's normal-mode line classification — blank line → Spacer; a line
prefixed with 1–3 marker characters (`#`) → Heading at the corresponding
level (marker count = level) with the marker and surrounding whitespace
stripped from the text; a bullet-marker line → bullet ListItem; a
"digits + period" line → ordinal ListItem; anything else → Paragraph.  The
fenced-code and table modes of §4.3 are not entered by any of these line
shapes and are outside the claim being checked. -/
def parseLine (line : String) : LayoutBlock :=
  let l := line.data
  if (stripL l).isEmpty then .spacerB
  else
    let hashes := (l.takeWhile fun c => c = '#').length
    if 1 ≤ hashes ∧ hashes ≤ 3 then .heading hashes (stripS ⟨l.drop hashes⟩)
    else if l.head? = some '•' then .listItem "•" (stripS ⟨l.drop 1⟩)
    else
      let ds := l.takeWhile isDigitC
      if ¬ds.isEmpty ∧ (l.drop ds.length).head? = some '.' then
        .listItem (⟨ds⟩ ++ ".") (stripS ⟨l.drop (ds.length + 1)⟩)
      else .paragraph line

/-- Modelled from the spec: `parse(markupText) -> ordered sequence of
LayoutBlock`, line-oriented single pass. -/
def parse (text : String) : List LayoutBlock := (splitNl text).map parseLine

/-! ## Auxiliary predicates used by the theorems -/

/-- The per-unit element lists in unit order, unit `0` first, as the content
loop visits them. -/
def enumUnits (i : Nat) : List SlideContent → List (List Elem)
  | [] => []
  | u :: us => unitElems i u :: enumUnits (i + 1) us

/-- Shape of the document `create_textbook_pdf` assembles for non-empty
content: the element list is the title page followed by the per-unit element
lists joined by single page breaks (so `N` page breaks in total — the one
closing the title page and `N − 1` between consecutive units), and no unit
contributes a page break of its own. -/
def orderedAssembly (c : List SlideContent) : Prop :=
  create_textbook_pdf c = some (titleElems ++ contentElems c) ∧
  countPB (titleElems ++ contentElems c) = c.length ∧
  contentElems c = sepJoin (enumUnits 0 c) ∧
  ∀ i u, Elem.pageBreakE ∉ unitElems i u

/-- All whitespace characters of a list are plain spaces. -/
def wsSpace (l : List Char) : Prop := ∀ c ∈ l, isWsC c = true → c = ' '

/-- No two adjacent whitespace characters. -/
def noAdjWs (l : List Char) : Prop :=
  l.Chain' fun a b => ¬(isWsC a = true ∧ isWsC b = true)

/-! # Lemmas and theorems -/

/-! ## Lemmas about the normalizer rules -/

theorem mem_collapseAux {c : Char} : ∀ {b : Bool} {l : List Char},
    c ∈ collapseAux b l → c = ' ' ∨ c ∈ l := by
  intro b l
  induction l generalizing b with
  | nil => intro h; simp [collapseAux] at h
  | cons d ds ih =>
    intro h
    simp only [collapseAux] at h
    split at h
    · split at h
      · rcases ih h with h' | h'
        · exact Or.inl h'
        · exact Or.inr (List.mem_cons_of_mem d h')
      · rcases List.mem_cons.mp h with h' | h'
        · exact Or.inl h'
        · rcases ih h' with h'' | h''
          · exact Or.inl h''
          · exact Or.inr (List.mem_cons_of_mem d h'')
    · rcases List.mem_cons.mp h with h' | h'
      · exact Or.inr (h' ▸ List.mem_cons_self d ds)
      · rcases ih h' with h'' | h''
        · exact Or.inl h''
        · exact Or.inr (List.mem_cons_of_mem d h'')

/-- The bullet rule does nothing to bullet-free text. -/
theorem bulletizeAux_eq_self : ∀ {l : List Char}, '•' ∉ l → bulletizeAux false l = l := by
  intro l
  induction l with
  | nil => intro _; rfl
  | cons c cs ih =>
    intro h
    have hc : ¬(c = '•') := fun e => h (e ▸ List.mem_cons_self c cs)
    have hcs : '•' ∉ cs := fun hx => h (List.mem_cons_of_mem c hx)
    simp only [bulletizeAux, Bool.false_eq_true, false_and, if_false, hc, ite_false]
    exact congrArg (c :: ·) (ih hcs)

/-- `numMatch` needs a literal period. -/
theorem numMatch_eq_none {l : List Char} (h : '.' ∉ l) : numMatch l = none := by
  simp only [numMatch]
  split
  · rfl
  · split
    · rename_i heq
      exfalso
      apply h
      have : '.' ∈ l.drop (l.takeWhile isDigitC).length := by
        rw [heq]; exact List.mem_cons_self _ _
      exact List.drop_subset _ l this
    · rfl

/-- The numbered-list rule does nothing to period-free text. -/
theorem numberizeAux_eq_self : ∀ (f : Nat) (b : Bool) {l : List Char},
    '.' ∉ l → numberizeAux f b l = l := by
  intro f
  induction f with
  | zero => intro b l _; rfl
  | succ f ih =>
    intro b l h
    cases l with
    | nil => rfl
    | cons c cs =>
      have hcs : '.' ∉ cs := fun hx => h (List.mem_cons_of_mem c hx)
      by_cases hb : b = true
      · subst hb
        simp only [numberizeAux, if_true]
        exact congrArg (c :: ·) (ih _ hcs)
      · simp only [numberizeAux, hb, if_false, numMatch_eq_none h]
        exact congrArg (c :: ·) (ih _ hcs)

/-- The sentence-break rule does nothing to punctuation-free text. -/
theorem sentenceBreak_eq_self : ∀ {l : List Char},
    (∀ c ∈ l, isPunctC c = false) → sentenceBreak l = l := by
  intro l
  induction l with
  | nil => intro _; rfl
  | cons c cs ih =>
    intro h
    cases cs with
    | nil => rfl
    | cons d rest =>
      have hc : isPunctC c = false := h c (List.mem_cons_self c _)
      simp only [sentenceBreak, hc, Bool.false_eq_true, false_and, if_false]
      exact congrArg (c :: ·) (ih fun x hx => h x (List.mem_cons_of_mem c hx))

theorem mem_stripL {c : Char} {l : List Char} (h : c ∈ stripL l) : c ∈ l := by
  unfold stripL at h
  rw [List.mem_reverse] at h
  have h1 := ((List.dropWhile_suffix _).sublist).mem h
  rw [List.mem_reverse] at h1
  exact ((List.dropWhile_suffix _).sublist).mem h1

/-! ## Whitespace structure of `collapse` outputs -/

theorem wsSpace_collapseAux : ∀ (b : Bool) (l : List Char), wsSpace (collapseAux b l) := by
  intro b l
  induction l generalizing b with
  | nil => intro c hc; simp [collapseAux] at hc
  | cons d ds ih =>
    intro c hc hw
    simp only [collapseAux] at hc
    split at hc
    · split at hc
      · exact ih _ c hc hw
      · rcases List.mem_cons.mp hc with rfl | hc'
        · rfl
        · exact ih _ c hc' hw
    · rcases List.mem_cons.mp hc with rfl | hc'
      · rename_i hne; exact absurd hw (by simpa using hne)
      · exact ih _ c hc' hw

theorem collapseAux_cons_ws_true {c : Char} (h : isWsC c = true) (cs : List Char) :
    collapseAux true (c :: cs) = collapseAux true cs := by
  simp [collapseAux, h]

theorem collapseAux_cons_ws_false {c : Char} (h : isWsC c = true) (cs : List Char) :
    collapseAux false (c :: cs) = ' ' :: collapseAux true cs := by
  simp [collapseAux, h]

theorem collapseAux_cons_nonws {c : Char} (h : isWsC c = false) (b : Bool) (cs : List Char) :
    collapseAux b (c :: cs) = c :: collapseAux false cs := by
  cases b <;> simp [collapseAux, h]

/-- In the `true` state the scan behaves like the `false` state whenever the
head is not whitespace (or the list is empty). -/
theorem collapseAux_true_eq_false : ∀ {l : List Char},
    (∀ d ds, l = d :: ds → isWsC d = false) → collapseAux true l = collapseAux false l := by
  intro l h
  cases l with
  | nil => rfl
  | cons d ds =>
    have hd := h d ds rfl
    rw [collapseAux_cons_nonws hd, collapseAux_cons_nonws hd]

/-- `collapse` never leaves two adjacent whitespace characters, and in the
`true` state the output never starts with whitespace. -/
theorem noAdj_collapseAux : ∀ (l : List Char),
    noAdjWs (collapseAux false l) ∧
      (noAdjWs (collapseAux true l) ∧
        ∀ d ds, collapseAux true l = d :: ds → isWsC d = false) := by
  intro l
  induction l with
  | nil => exact ⟨List.chain'_nil, List.chain'_nil, fun d ds h => by simp [collapseAux] at h⟩
  | cons c cs ih =>
    obtain ⟨Pcs, Qcs, Hcs⟩ := ih
    by_cases hw : isWsC c = true
    · refine ⟨?_, ?_, ?_⟩
      · rw [collapseAux_cons_ws_false hw]
        rw [noAdjWs, List.chain'_cons']
        refine ⟨?_, Qcs⟩
        intro b hb
        cases hcts : collapseAux true cs with
        | nil => rw [hcts] at hb; simp at hb
        | cons e es =>
          rw [hcts] at hb
          simp only [List.head?_cons, Option.mem_def, Option.some.injEq] at hb
          subst hb
          intro hcontra
          exact absurd hcontra.2 (by simp [Hcs e es hcts])
      · rw [collapseAux_cons_ws_true hw]
        exact Qcs
      · intro d ds h
        rw [collapseAux_cons_ws_true hw] at h
        exact Hcs d ds h
    · have hw' : isWsC c = false := by simpa using hw
      have key : noAdjWs (c :: collapseAux false cs) := by
        rw [noAdjWs, List.chain'_cons']
        refine ⟨?_, Pcs⟩
        intro b _ hcontra
        rw [hw'] at hcontra
        exact Bool.false_ne_true hcontra.1
      refine ⟨?_, ?_, ?_⟩
      · rw [collapseAux_cons_nonws hw']
        exact key
      · rw [collapseAux_cons_nonws hw']
        exact key
      · intro d ds h
        rw [collapseAux_cons_nonws hw'] at h
        exact (List.cons.injEq _ _ _ _ ▸ h).1 ▸ hw'

theorem wsSpace_collapse (l : List Char) : wsSpace (collapse l) := wsSpace_collapseAux false l

theorem noAdj_collapse (l : List Char) : noAdjWs (collapse l) := (noAdj_collapseAux l).1

/-- `collapse` is the identity on single-spaced text. -/
theorem collapse_eq_self : ∀ {l : List Char}, wsSpace l → noAdjWs l → collapse l = l := by
  intro l
  induction l with
  | nil => intro _ _; rfl
  | cons c cs ih =>
    intro hws hna
    have hcs_ws : wsSpace cs := fun x hx => hws x (List.mem_cons_of_mem c hx)
    have hcs_na : noAdjWs cs := hna.tail
    by_cases hw : isWsC c = true
    · have hsp : c = ' ' := hws c (List.mem_cons_self c cs) hw
      have hhead : ∀ d ds, cs = d :: ds → isWsC d = false := by
        intro d ds h
        subst h
        have := (List.chain'_cons.mp hna).1
        by_cases hd : isWsC d = true
        · exact absurd ⟨hw, hd⟩ this
        · simpa using hd
      show collapseAux false (c :: cs) = c :: cs
      rw [collapseAux_cons_ws_false hw, collapseAux_true_eq_false hhead, hsp]
      exact congrArg (' ' :: ·) (ih hcs_ws hcs_na)
    · have hw' : isWsC c = false := by simpa using hw
      show collapseAux false (c :: cs) = c :: cs
      rw [collapseAux_cons_nonws hw']
      exact congrArg (c :: ·) (ih hcs_ws hcs_na)

/-! ## `stripL` preserves the whitespace structure and is idempotent -/

theorem noAdj_dropWhile (p : Char → Bool) : ∀ {l : List Char}, noAdjWs l → noAdjWs (l.dropWhile p) := by
  intro l
  induction l with
  | nil => intro h; exact h
  | cons c cs ih =>
    intro h
    rw [List.dropWhile_cons]
    split
    · exact ih h.tail
    · exact h

theorem noAdj_reverse {l : List Char} (h : noAdjWs l) : noAdjWs l.reverse := by
  rw [noAdjWs, List.chain'_reverse]
  exact h.imp fun {_ _} hab hc => hab ⟨hc.2, hc.1⟩

theorem noAdj_stripL {l : List Char} (h : noAdjWs l) : noAdjWs (stripL l) :=
  noAdj_reverse (noAdj_dropWhile _ (noAdj_reverse (noAdj_dropWhile _ h)))

theorem dropWhile_head_false (p : Char → Bool) : ∀ {l : List Char} {d : Char} {ds : List Char},
    l.dropWhile p = d :: ds → p d = false := by
  intro l
  induction l with
  | nil => intro d ds h; simp at h
  | cons c cs ih =>
    intro d ds h
    rw [List.dropWhile_cons] at h
    split at h
    · exact ih h
    · rename_i hc
      cases h
      simpa using hc

theorem dropWhile_eq_self_of_head (p : Char → Bool) {l : List Char}
    (h : ∀ d ds, l = d :: ds → p d = false) : l.dropWhile p = l := by
  cases l with
  | nil => rfl
  | cons c cs =>
    rw [List.dropWhile_cons]
    simp [h c cs rfl]

/-- The first character of a stripped list is not whitespace. -/
theorem stripL_head_not_ws : ∀ {l : List Char} {d : Char} {ds : List Char},
    stripL l = d :: ds → isWsC d = false := by
  intro l d ds h
  have hB : ((l.dropWhile isWsC).reverse.dropWhile isWsC).reverse = d :: ds := h
  set A := l.dropWhile isWsC with hA
  set B := A.reverse.dropWhile isWsC with hB'
  have hBne : B ≠ [] := by
    intro hnil
    rw [hnil] at hB
    simp at hB
  have h1 : B.reverse.head? = B.getLast? := List.head?_reverse B
  obtain ⟨pre, hpre⟩ : B <:+ A.reverse := List.dropWhile_suffix isWsC
  have h2 : (pre ++ B).getLast? = B.getLast? := List.getLast?_append_of_ne_nil pre hBne
  have h3 : A.head? = A.reverse.getLast? := by
    have := List.head?_reverse A.reverse
    rwa [List.reverse_reverse] at this
  have h4 : A.head? = some d := by
    rw [h3, ← hpre, h2, ← h1, hB]
    rfl
  cases hAeq : A with
  | nil => rw [hAeq] at h4; simp at h4
  | cons a as =>
    rw [hAeq] at h4
    simp only [List.head?_cons, Option.some.injEq] at h4
    subst h4
    exact dropWhile_head_false isWsC hAeq

theorem stripL_idem (l : List Char) : stripL (stripL l) = stripL l := by
  have h1 : (stripL l).dropWhile isWsC = stripL l :=
    dropWhile_eq_self_of_head _ fun d ds h => stripL_head_not_ws h
  show (((stripL l).dropWhile isWsC).reverse.dropWhile isWsC).reverse = stripL l
  rw [h1]
  show ((((l.dropWhile isWsC).reverse.dropWhile isWsC).reverse).reverse.dropWhile isWsC).reverse = _
  rw [List.reverse_reverse, List.dropWhile_idempotent]
  rfl

/-! ## Idempotence of `clean_text` on text free of `•`, `.`, `!`, `?` -/

theorem cleanList_eq_of_plain {l : List Char}
    (h : ∀ c ∈ l, c ≠ '•' ∧ c ≠ '.' ∧ c ≠ '!' ∧ c ≠ '?') :
    cleanList l = stripL (collapse l) := by
  have hmem : ∀ c ∈ collapse l, c ≠ '•' ∧ c ≠ '.' ∧ c ≠ '!' ∧ c ≠ '?' := by
    intro c hc
    rcases mem_collapseAux hc with rfl | hc'
    · exact ⟨by decide, by decide, by decide, by decide⟩
    · exact h c hc'
  have hb : bulletize (collapse l) = collapse l :=
    bulletizeAux_eq_self fun hx => (hmem _ hx).1 rfl
  have hn : numberize (collapse l) = collapse l :=
    numberizeAux_eq_self _ _ fun hx => (hmem _ hx).2.1 rfl
  have hs : sentenceBreak (collapse l) = collapse l := by
    apply sentenceBreak_eq_self
    intro c hc
    obtain ⟨-, h2, h3, h4⟩ := hmem c hc
    simp [isPunctC, h2, h3, h4]
  unfold cleanList
  rw [show bulletize (collapse l) = collapse l from hb, hn, hs]

theorem cleanList_idem_of_plain {l : List Char}
    (h : ∀ c ∈ l, c ≠ '•' ∧ c ≠ '.' ∧ c ≠ '!' ∧ c ≠ '?') :
    cleanList (cleanList l) = cleanList l := by
  have h1 := cleanList_eq_of_plain h
  have hy : ∀ c ∈ cleanList l, c ≠ '•' ∧ c ≠ '.' ∧ c ≠ '!' ∧ c ≠ '?' := by
    intro c hc
    rw [h1] at hc
    rcases mem_collapseAux (mem_stripL hc) with rfl | hc'
    · exact ⟨by decide, by decide, by decide, by decide⟩
    · exact h c hc'
  rw [cleanList_eq_of_plain hy, h1]
  have hw' : wsSpace (stripL (collapse l)) :=
    fun c hc hwc => wsSpace_collapse l c (mem_stripL hc) hwc
  have hn' : noAdjWs (stripL (collapse l)) := noAdj_stripL (noAdj_collapse l)
  rw [collapse_eq_self hw' hn', stripL_idem]

/-! ## Lemmas about the assembled element sequence -/

theorem mem_catMap {f : α → List β} {c : β} : ∀ {as : List α},
    c ∈ catMap f as → ∃ a ∈ as, c ∈ f a := by
  intro as
  induction as with
  | nil => intro h; simp [catMap] at h
  | cons a as ih =>
    intro h
    rcases List.mem_append.mp h with h' | h'
    · exact ⟨a, List.mem_cons_self a as, h'⟩
    · obtain ⟨b, hb, hc⟩ := ih h'
      exact ⟨b, List.mem_cons_of_mem a hb, hc⟩

theorem pb_not_mem_textElems (t : String) : Elem.pageBreakE ∉ textElems t := by
  unfold textElems
  split
  · simp
  · split
    · simp
    · intro h
      obtain ⟨p, -, hp⟩ := List.mem_map.mp h
      exact Elem.noConfusion hp

theorem pb_not_mem_imageElems (i : Nat) (imgs : List ImgFile) :
    Elem.pageBreakE ∉ imageElems i imgs := by
  intro h
  obtain ⟨im, -, hc⟩ := mem_catMap h
  rcases List.mem_cons.mp hc with h' | h'
  · exact Elem.noConfusion h'
  · by_cases hr : im.renderable = true
    · rw [if_pos hr] at h'
      simp at h'
    · rw [if_neg hr] at h'
      simp at h'

theorem pb_not_mem_unitElems (i : Nat) (u : SlideContent) :
    Elem.pageBreakE ∉ unitElems i u := by
  intro h
  rcases List.mem_append.mp h with h' | h'
  · exact pb_not_mem_textElems u.text h'
  · exact pb_not_mem_imageElems i u.images h'

theorem countPB_append (a b : List Elem) : countPB (a ++ b) = countPB a + countPB b :=
  List.countP_append _ a b

theorem countPB_unitElems (i : Nat) (u : SlideContent) : countPB (unitElems i u) = 0 := by
  unfold countPB
  rw [List.countP_eq_zero]
  intro e he hd
  have : e = Elem.pageBreakE := of_decide_eq_true hd
  exact pb_not_mem_unitElems i u (this ▸ he)

theorem countPB_contentElemsFrom : ∀ (rest : List SlideContent) (i : Nat), 1 ≤ i →
    countPB (contentElemsFrom i rest) = rest.length := by
  intro rest
  induction rest with
  | nil => intro i _; rfl
  | cons u us ih =>
    intro i hi
    show countPB ((if i > 0 then [Elem.pageBreakE] else []) ++ unitElems i u ++
      contentElemsFrom (i + 1) us) = us.length + 1
    rw [if_pos (show i > 0 from hi), countPB_append, countPB_append, countPB_unitElems,
      ih (i + 1) (by omega)]
    simp [countPB]
    omega

theorem contentElemsFrom_eq_cat : ∀ (rest : List SlideContent) (i : Nat), 1 ≤ i →
    contentElemsFrom i rest = catMap (fun x => Elem.pageBreakE :: x) (enumUnits i rest) := by
  intro rest
  induction rest with
  | nil => intro i _; rfl
  | cons u us ih =>
    intro i hi
    show (if i > 0 then [Elem.pageBreakE] else []) ++ unitElems i u ++
        contentElemsFrom (i + 1) us = _
    rw [if_pos (show i > 0 from hi), ih (i + 1) (by omega)]
    rfl

theorem catMap_pb_eq_sepJoin : ∀ (L : List (List Elem)), L ≠ [] →
    catMap (fun x => Elem.pageBreakE :: x) L = Elem.pageBreakE :: sepJoin L := by
  intro L
  induction L with
  | nil => intro h; exact absurd rfl h
  | cons a as ih =>
    intro _
    cases as with
    | nil => simp [catMap, sepJoin]
    | cons b bs =>
      show (Elem.pageBreakE :: a) ++ catMap _ (b :: bs) = Elem.pageBreakE :: sepJoin (a :: b :: bs)
      rw [ih (by simp)]
      rfl

theorem enumUnits_cons (i : Nat) (u : SlideContent) (us : List SlideContent) :
    enumUnits i (u :: us) = unitElems i u :: enumUnits (i + 1) us := rfl

theorem contentElems_eq_sepJoin : ∀ (c : List SlideContent), c ≠ [] →
    contentElems c = sepJoin (enumUnits 0 c) := by
  intro c hc
  cases c with
  | nil => exact absurd rfl hc
  | cons u us =>
    show (if (0 : Nat) > 0 then [Elem.pageBreakE] else []) ++ unitElems 0 u ++
      contentElemsFrom 1 us = _
    rw [if_neg (by omega), List.nil_append]
    cases us with
    | nil => simp [contentElemsFrom, enumUnits, sepJoin]
    | cons v vs =>
      rw [contentElemsFrom_eq_cat (v :: vs) 1 le_rfl,
        catMap_pb_eq_sepJoin _ (by simp [enumUnits])]
      rfl

/-! ## Lemmas about the extractor image loops -/

theorem pdfScanFrom_spec : ∀ (imgs : List SrcImg) (p j : Nat),
    (pdfScanFrom p j imgs).scratch = (pdfScanFrom p j imgs).kept.map (·.path) ∧
    (pdfScanFrom p j imgs).kept.map (fun g => (g.w, g.h, g.renderable)) =
      (imgs.filter (·.decodable)).map (fun im => (im.w, im.h, im.renderable)) ∧
    (pdfScanFrom p j imgs).warnings = (imgs.filter fun im => !im.decodable).length ∧
    (pdfScanFrom p j imgs).removed.length = (imgs.filter fun im => !im.decodable).length ∧
    (pdfScanFrom p j imgs).kept.length + (pdfScanFrom p j imgs).removed.length = imgs.length := by
  intro imgs
  induction imgs with
  | nil => intro p j; exact ⟨rfl, rfl, rfl, rfl, rfl⟩
  | cons im rest ih =>
    intro p j
    obtain ⟨h1, h2, h3, h4, h5⟩ := ih p (j + 1)
    by_cases hd : im.decodable = true
    · refine ⟨?_, ?_, ?_, ?_, ?_⟩ <;>
        simp [pdfScanFrom, hd, List.filter_cons, h1, h2, h3, h4] <;> omega
    · have hd' : im.decodable = false := by simpa using hd
      refine ⟨?_, ?_, ?_, ?_, ?_⟩ <;>
        simp [pdfScanFrom, hd', List.filter_cons, h1, h2, h3, h4] <;> omega

theorem pptxScanFrom_spec : ∀ (imgs : List SrcImg) (n j : Nat),
    (pptxScanFrom n j imgs).scratch = (pptxScanFrom n j imgs).kept.map (·.path) ∧
    (pptxScanFrom n j imgs).kept.map (fun g => (g.w, g.h, g.renderable)) =
      (imgs.filter (·.decodable)).map (fun im => (im.w, im.h, im.renderable)) ∧
    (pptxScanFrom n j imgs).warnings = (imgs.filter fun im => !im.decodable).length ∧
    (pptxScanFrom n j imgs).removed.length = (imgs.filter fun im => !im.decodable).length ∧
    (pptxScanFrom n j imgs).kept.length + (pptxScanFrom n j imgs).removed.length = imgs.length := by
  intro imgs
  induction imgs with
  | nil => intro n j; exact ⟨rfl, rfl, rfl, rfl, rfl⟩
  | cons im rest ih =>
    intro n j
    by_cases hd : im.decodable = true
    · obtain ⟨h1, h2, h3, h4, h5⟩ := ih n (j + 1)
      refine ⟨?_, ?_, ?_, ?_, ?_⟩ <;>
        simp [pptxScanFrom, hd, List.filter_cons, h1, h2, h3, h4] <;> omega
    · obtain ⟨h1, h2, h3, h4, h5⟩ := ih n j
      have hd' : im.decodable = false := by simpa using hd
      refine ⟨?_, ?_, ?_, ?_, ?_⟩ <;>
        simp [pptxScanFrom, hd', List.filter_cons, h1, h2, h3, h4] <;> omega

/-- The PDF image loop never reads the payload size. -/
theorem pdfScanFrom_size_blind : ∀ (imgs : List SrcImg) (p j : Nat) (f : SrcImg → Nat),
    pdfScanFrom p j (imgs.map fun im => { im with size := f im }) = pdfScanFrom p j imgs := by
  intro imgs
  induction imgs with
  | nil => intro p j f; rfl
  | cons im rest ih =>
    intro p j f
    by_cases hd : im.decodable = true
    · simp only [List.map_cons, pdfScanFrom, hd, if_true, ih p (j + 1) f]
    · have hd' : im.decodable = false := by simpa using hd
      simp only [List.map_cons, pdfScanFrom, hd', Bool.false_eq_true, if_false,
        ih p (j + 1) f]

/-- The two sequential clampings of `resizeDims`, written as a four-way case
split. -/
theorem resizeDims_eq (w h maxW maxH : ℚ) :
    resizeDims w h maxW maxH =
      if w > maxW then
        if maxW / (w / h) > maxH then (maxH * (w / h), maxH) else (maxW, maxW / (w / h))
      else if h > maxH then (maxH * (w / h), maxH) else (w, h) := by
  unfold resizeDims
  by_cases h1 : w > maxW <;> simp [h1]

/-! # Claim theorems -/

/-- C1 (counterexample): the claim asserts the assembled document contains
exactly `N − 1` explicit page breaks; for a single unit (`N = 1`) the
elements `create_textbook_pdf` builds already contain one page break — the
one closing the title page (line 277) — not `0`. -/
theorem c1_counterexample :
    (create_textbook_pdf [⟨"hi", []⟩]).map countPB = some 1 ∧
      (1 : Nat) ≠ [(⟨"hi", []⟩ : SlideContent)].length - 1 := by
  decide

/-- C1 (amended): for every non-empty input the assembled element sequence
is the title page followed by the per-unit element lists in unit order
joined by single page breaks; it therefore contains exactly `N` explicit
page breaks — `N − 1` between consecutive units plus the one closing the
title page — never one inside a unit, and unit-derived elements appear in
non-decreasing unit-index order. -/
theorem c1_page_breaks_and_order (c : List SlideContent) (hc : c ≠ []) :
    orderedAssembly c := by
  refine ⟨?_, ?_, contentElems_eq_sepJoin c hc, pb_not_mem_unitElems⟩
  · cases c with
    | nil => exact absurd rfl hc
    | cons u us => rfl
  · rw [countPB_append]
    cases c with
    | nil => exact absurd rfl hc
    | cons u us =>
      have h0 : contentElemsFrom 0 (u :: us) = unitElems 0 u ++ contentElemsFrom 1 us := by
        show (if (0 : Nat) > 0 then [Elem.pageBreakE] else []) ++ _ ++ _ = _
        rw [if_neg (by omega), List.nil_append]
      show countPB titleElems + countPB (contentElemsFrom 0 (u :: us)) = us.length + 1
      rw [h0, countPB_append, countPB_unitElems, countPB_contentElemsFrom us 1 le_rfl]
      have ht : countPB titleElems = 1 := rfl
      omega

/-- C1 (witness): the amended statement holds for a concrete two-unit
input. -/
theorem c1_witness :
    ([⟨"hi", []⟩, ⟨"world", []⟩] : List SlideContent) ≠ [] ∧
      orderedAssembly [⟨"hi", []⟩, ⟨"world", []⟩] :=
  ⟨by simp, c1_page_breaks_and_order _ (by simp)⟩

/-- C2 (counterexample): the normalizer is not idempotent.  On
`"End.Start"` the sentence-break rule inserts a line break that a second
application's whitespace collapse turns into a plain space, and on `"a•b"`
the bullet rule inserts a line break directly after `a` while the second
application separates it with an extra space. -/
theorem c2_counterexample :
    clean_text "End.Start" = "End.\nStart" ∧
      clean_text (clean_text "End.Start") = "End. Start" ∧
      clean_text (clean_text "End.Start") ≠ clean_text "End.Start" ∧
      clean_text (clean_text "a•b") ≠ clean_text "a•b" := by
  decide

/-- C2 (amended): `normalize` is idempotent on text containing none of the
rule-trigger characters `•`, `.`, `!`, `?` — there only whitespace
collapsing and stripping act, and those are idempotent together.  (On text
containing the trigger characters idempotence can fail, see the
counterexample.) -/
theorem c2_normalize_idempotent_on_plain (s : String)
    (h : ∀ c ∈ s.data, c ≠ '•' ∧ c ≠ '.' ∧ c ≠ '!' ∧ c ≠ '?') :
    clean_text (clean_text s) = clean_text s := by
  by_cases he : s.data.isEmpty
  · have h1 : clean_text s = "" := by unfold clean_text; rw [if_pos he]
    rw [h1]
    rfl
  · have h1 : clean_text s = ⟨cleanList s.data⟩ := by unfold clean_text; rw [if_neg he]
    rw [h1]
    show (if (cleanList s.data).isEmpty then "" else ⟨cleanList (cleanList s.data)⟩) = _
    by_cases h2 : (cleanList s.data).isEmpty
    · rw [if_pos h2]
      have h3 : cleanList s.data = [] := by simpa using h2
      rw [h3]
    · rw [if_neg h2]
      exact congrArg String.mk (cleanList_idem_of_plain h)

/-- C2 (witness): idempotence at a concrete trigger-free input with mixed
whitespace. -/
theorem c2_witness :
    (∀ c ∈ (" several  words\there and\nthere " : String).data,
        c ≠ '•' ∧ c ≠ '.' ∧ c ≠ '!' ∧ c ≠ '?') ∧
      clean_text (clean_text " several  words\there and\nthere ") =
        clean_text " several  words\there and\nthere " :=
  ⟨by decide, c2_normalize_idempotent_on_plain _ (by decide)⟩

/-- C3 (counterexample): on an unopenable container both extractors return
the ordinary empty unit list — the same value a valid but empty document
yields — instead of surfacing an exception; the claim's "rather than
returning a normal (e.g. empty) result" is exactly what happens. -/
theorem c3_counterexample :
    (extract_pdf none).1 = [] ∧ (extract_pptx none).1 = [] ∧
      (extract_pdf none).1 = (extract_pdf (some ⟨[]⟩)).1 :=
  ⟨rfl, rfl, rfl⟩

/-- C3 (amended): a container-open failure is reported through the UI error
log while the extractor returns an empty unit list; no `ContainerOpenError`
exception reaches the caller, and the run then stops in the driver's
empty-content check, producing no output artifact. -/
theorem c3_open_failure_returns_empty :
    extract_pdf none = ([], ["Failed to open PDF file"]) ∧
      extract_pptx none = ([], ["Failed to open PPTX file"]) ∧
      runConversion (extract_pdf none).1 =
        .error "No extractable content found in the file" ∧
      runConversion (extract_pptx none).1 =
        .error "No extractable content found in the file" :=
  ⟨rfl, rfl, rfl, rfl⟩

/-- C4 (counterexample): a 10-byte image — far below the claimed ~20 KB
(`20480` byte) threshold — that decodes successfully is retained in the
page's image list, contradicting the claimed exclusion. -/
theorem c4_counterexample :
    10 < 20480 ∧
      (pdfScan 0 [⟨10, "png", true, 100, 50, true⟩]).kept =
        [⟨"page_0_img_0.png", 100, 50, true⟩] := by
  decide

/-- C4 (amended): the PDF extractor applies no byte-size filtering at all —
its result never depends on payload sizes, and an image is retained exactly
when its written payload decodes, small or large. -/
theorem c4_no_size_threshold (p : Nat) (imgs : List SrcImg) (f : SrcImg → Nat) :
    pdfScan p (imgs.map fun im => { im with size := f im }) = pdfScan p imgs ∧
      (pdfScan p imgs).kept.map (fun g => (g.w, g.h, g.renderable)) =
        (imgs.filter (·.decodable)).map (fun im => (im.w, im.h, im.renderable)) :=
  ⟨pdfScanFrom_size_blind imgs p 0 f, (pdfScanFrom_spec imgs p 0).2.1⟩

/-- C5: if extraction yields zero units, or every unit has empty text and
zero images, the driver stops with the empty-content error before
`create_textbook_pdf` is ever invoked and produces no output artifact
(and `create_textbook_pdf` itself also rejects empty content). -/
theorem c5_empty_content_guard (content : List SlideContent)
    (h : content = [] ∨ ∀ u ∈ content, u.text = "" ∧ u.images = []) :
    runConversion content = .error "No extractable content found in the file" ∧
      create_textbook_pdf [] = none := by
  refine ⟨?_, rfl⟩
  have hg : emptyGuard content = true := by
    rcases h with rfl | hall
    · rfl
    · unfold emptyGuard
      rw [Bool.or_eq_true]
      right
      rw [List.all_eq_true]
      intro u hu
      obtain ⟨h1, h2⟩ := hall u hu
      rw [h1, h2]
      rfl
  unfold runConversion
  rw [if_pos hg]

/-- C5 (witness): the guard fires on the concrete zero-unit extraction
result. -/
theorem c5_witness :
    runConversion [] = .error "No extractable content found in the file" ∧
      create_textbook_pdf [] = none :=
  c5_empty_content_guard [] (Or.inl rfl)

/-- C6: the markup parser maps `"# Title"` to exactly one Heading block of
level 1 with text `"Title"`, and `"### Sub"` to exactly one Heading block
of level 3 with text `"Sub"`. -/
theorem c6_heading_markup :
    parse "# Title" = [.heading 1 "Title"] ∧ parse "### Sub" = [.heading 3 "Sub"] := by
  decide

/-- C7: in both extractors a failed image decode removes the
partially-written scratch file (afterwards the scratch directory holds
exactly the kept images' files), excludes the image from the unit's list
(the kept images are exactly the decodable ones, in order), records one
warning per failure instead of an error, and processing continues through
every remaining image. -/
theorem c7_decode_failure_isolated (p n : Nat) (pdfImgs pptxImgs : List SrcImg) :
    ((pdfScan p pdfImgs).scratch = (pdfScan p pdfImgs).kept.map (·.path) ∧
      (pdfScan p pdfImgs).warnings = (pdfImgs.filter fun im => !im.decodable).length ∧
      (pdfScan p pdfImgs).removed.length = (pdfImgs.filter fun im => !im.decodable).length ∧
      (pdfScan p pdfImgs).kept.length + (pdfScan p pdfImgs).removed.length = pdfImgs.length ∧
      (pdfScan p pdfImgs).kept.map (fun g => (g.w, g.h, g.renderable)) =
        (pdfImgs.filter (·.decodable)).map (fun im => (im.w, im.h, im.renderable))) ∧
    ((pptxScan n pptxImgs).scratch = (pptxScan n pptxImgs).kept.map (·.path) ∧
      (pptxScan n pptxImgs).warnings = (pptxImgs.filter fun im => !im.decodable).length ∧
      (pptxScan n pptxImgs).removed.length =
        (pptxImgs.filter fun im => !im.decodable).length ∧
      (pptxScan n pptxImgs).kept.length + (pptxScan n pptxImgs).removed.length =
        pptxImgs.length ∧
      (pptxScan n pptxImgs).kept.map (fun g => (g.w, g.h, g.renderable)) =
        (pptxImgs.filter (·.decodable)).map (fun im => (im.w, im.h, im.renderable))) := by
  obtain ⟨a1, a2, a3, a4, a5⟩ := pdfScanFrom_spec pdfImgs p 0
  obtain ⟨b1, b2, b3, b4, b5⟩ := pptxScanFrom_spec pptxImgs n 0
  exact ⟨⟨a1, a3, a4, a5, a2⟩, ⟨b1, b3, b4, b5, b2⟩⟩

/-- C8: the assembler's resize computation fits every image into the
bounding box and preserves the aspect ratio (`w' * h = h' * w`), and the
spec's instance — an 800×400 image in a 300×300 box — renders at 300×150. -/
theorem c8_aspect_preserving_resize :
    (∀ w h maxW maxH : ℚ, 0 < w → 0 < h → 0 < maxW → 0 < maxH →
      (resizeDims w h maxW maxH).1 ≤ maxW ∧ (resizeDims w h maxW maxH).2 ≤ maxH ∧
        (resizeDims w h maxW maxH).1 * h = (resizeDims w h maxW maxH).2 * w) ∧
      resizeDims 800 400 300 300 = (300, 150) := by
  constructor
  · intro w h maxW maxH hw hh hW hH
    have hh0 : h ≠ 0 := ne_of_gt hh
    have hw0 : w ≠ 0 := ne_of_gt hw
    have hasp : 0 < w / h := div_pos hw hh
    rw [resizeDims_eq]
    split_ifs with h1 h2 h3
    · -- w > maxW and the clamped height maxW / (w / h) still exceeds maxH
      refine ⟨le_of_lt ((lt_div_iff hasp).mp h2), le_refl _, ?_⟩
      show maxH * (w / h) * h = maxH * w
      field_simp
    · -- w > maxW and the clamped height fits
      refine ⟨le_refl _, not_lt.mp h2, ?_⟩
      show maxW * h = maxW / (w / h) * w
      rw [div_div_eq_mul_div, div_mul_eq_mul_div, mul_comm maxW h, mul_assoc,
        mul_div_assoc, mul_div_cancel_right₀ _ hw0]
    · -- w fits but h > maxH
      refine ⟨?_, le_refl _, ?_⟩
      · have hmw : maxH * (w / h) = maxH * w / h := (mul_div_assoc _ _ _).symm
        have hlt : maxH * (w / h) < w := by
          rw [hmw, div_lt_iff hh]
          nlinarith
        exact le_of_lt (lt_of_lt_of_le hlt (not_lt.mp h1))
      · show maxH * (w / h) * h = maxH * w
        field_simp
    · exact ⟨not_lt.mp h1, not_lt.mp h3, by ring⟩
  · norm_num [resizeDims]

/-- C8 (witness): the general bound/ratio statement instantiated at the
spec's 800×400 image and 300×300 box. -/
theorem c8_witness :
    (0 : ℚ) < 800 ∧ (0 : ℚ) < 400 ∧ (0 : ℚ) < 300 ∧
      ((resizeDims 800 400 300 300).1 ≤ 300 ∧ (resizeDims 800 400 300 300).2 ≤ 300 ∧
        (resizeDims 800 400 300 300).1 * 400 = (resizeDims 800 400 300 300).2 * 800) :=
  ⟨by norm_num, by norm_num, by norm_num,
    c8_aspect_preserving_resize.1 800 400 300 300 (by norm_num) (by norm_num)
      (by norm_num) (by norm_num)⟩

/-- C9: the normalizer is pure and total in the embedding (a Lean function
on all of `Option String`), and empty or null input yields the empty
string. -/
theorem c9_normalize_total_empty :
    clean_text_opt none = "" ∧ clean_text_opt (some "") = "" ∧ clean_text "" = "" :=
  ⟨rfl, rfl, rfl⟩

/-- C10: during assembly a unit whose text contains `"heading"`
(case-insensitively) within its first 20 characters is rendered as a single
Heading2-styled element holding the unit's entire text (plus the spacer the
code appends); any other unit's text is split on line breaks with each
non-blank line becoming one body paragraph. -/
theorem c10_heading_heuristic (i : Nat) (u : SlideContent) :
    (headingDetect u.text = true → u.text ≠ "" →
      unitElems i u =
        [.para .heading2 u.text, .spacerE (1 / 10 * inch)] ++ imageElems i u.images) ∧
    (headingDetect u.text = false →
      unitElems i u =
        (((splitNl u.text).filter fun p => stripS p ≠ "").map (Elem.para .textbook)) ++
          imageElems i u.images) := by
  constructor
  · intro hd ht
    unfold unitElems textElems
    rw [if_neg ht, if_pos hd]
  · intro hd
    unfold unitElems textElems
    by_cases ht : u.text = ""
    · rw [if_pos ht, ht]
      rfl
    · rw [if_neg ht, if_neg (by simp [hd])]

/-- C10 (witness): both branches at concrete units — a heading-like text and
a two-line body text. -/
theorem c10_witness :
    headingDetect "Heading One" = true ∧
      headingDetect "First line\nSecond" = false ∧
      unitElems 0 ⟨"Heading One", []⟩ =
        [.para .heading2 "Heading One", .spacerE (1 / 10 * inch)] ∧
      unitElems 1 ⟨"First line\nSecond", []⟩ =
        [.para .textbook "First line", .para .textbook "Second"] := by
  refine ⟨by decide, by decide, ?_, ?_⟩
  · rw [(c10_heading_heuristic 0 ⟨"Heading One", []⟩).1 (by decide) (by decide)]
    simp [imageElems, catMap]
  · rw [(c10_heading_heuristic 1 ⟨"First line\nSecond", []⟩).2 (by decide)]
    decide

end Textbook
